import Mathlib

/-!
Verification of the Pyinance scoring pipeline against its specification.

The definitions below are shallow embeddings of the Python sources:

* `SentimentAnalyzer.analyze` / `analyze_batch`
  (src/backend/app/services/sentiment_analyzer.py);
* `add_article` over the SQLite `articles` table with its
  `source_url TEXT UNIQUE` constraint (src/backend/app/database.py);
* `ScoreCalculator.calculate_for_date` / `_calculate_scores` and the
  `/scores/calculate/{date}` route (src/backend/app/services/score_calculator.py,
  src/backend/app/routes/scores.py);
* `NewsSpYBatchProcessor._calculate_scores` (src/backend/batch/main.py).

Python floats are modelled as rationals; SQL tables as lists or
key-indexed functions; raised exceptions as `Option` failures.
-/

/-! ## Sentiment analyzer (src/backend/app/services/sentiment_analyzer.py) -/

/-- The three labels the FinBERT classifier can return
(`result["label"]` in `SentimentAnalyzer.analyze`). -/
inductive SentLabel where
  | positive
  | negative
  | neutral
deriving DecidableEq

/-- The external FinBERT pipeline: text to (label, confidence).
The pipeline itself is an external collaborator; it is a parameter of the
embedding. -/
def Classifier : Type := String → SentLabel × ℚ

/-- `self.positive_keywords` from `SentimentAnalyzer.__init__`. -/
def positive_keywords : List String :=
  ["growth", "increase", "rise", "surge", "gain", "profit", "revenue",
   "earnings", "beat", "exceed", "strong", "positive", "bullish",
   "expansion", "success", "breakthrough", "innovation", "launch",
   "record", "high", "upgrade", "outperform", "buy", "recommend",
   "recovery", "momentum", "rally", "boost", "accelerate", "expand",
   "acquire", "partnership", "collaboration", "investment", "fund",
   "dividend", "yield", "return", "margin", "outlook", "guidance",
   "forecast", "target", "potential", "opportunity", "advantage",
   "lead", "dominate", "market share", "competitive", "scale",
   "efficient", "productivity", "optimize", "streamline", "improve",
   "enhance", "upgrade", "modernize", "transform", "revolutionize"]

/-- `self.negative_keywords` from `SentimentAnalyzer.__init__`. -/
def negative_keywords : List String :=
  ["decline", "decrease", "fall", "drop", "loss", "downgrade", "sell",
   "underperform", "miss", "weak", "negative", "bearish", "concern",
   "risk", "challenge", "issue", "problem", "crisis", "recession",
   "slowdown", "contraction", "layoff", "cut", "reduce", "downsize",
   "delay", "postpone", "cancel", "suspend", "investigation", "lawsuit",
   "regulatory", "compliance", "penalty", "fine", "sanction", "ban",
   "restriction", "limit", "shortage", "shortfall", "deficit", "debt",
   "default", "bankruptcy", "insolvency", "liquidation", "closure",
   "shutdown", "exit", "withdraw", "abandon", "fail", "failure",
   "disappoint", "disappointing", "worse", "worsening", "deteriorate"]

/-- Does `pat` occur at the head of `s`? -/
def matchesAt : List Char → List Char → Bool
  | [], _ => true
  | _ :: _, [] => false
  | p :: ps, c :: cs => p == c && matchesAt ps cs

/-- Python's substring test `pat in s`. -/
def containsSub (pat : List Char) : List Char → Bool
  | [] => matchesAt pat []
  | c :: cs => matchesAt pat (c :: cs) || containsSub pat cs

/-- Python's `str.lower()` (ASCII case folding suffices for the lexicons). -/
def strLower (s : String) : String := ⟨s.data.map Char.toLower⟩

/-- `SentimentAnalyzer._calculate_keyword_score`:
`(positive_count - negative_count) / max(1, total_count)`, and `0.0` when no
keyword matches at all. -/
def calculate_keyword_score (text : String) : ℚ :=
  let positive_count :=
    (positive_keywords.filter (fun kw => containsSub kw.data text.data)).length
  let negative_count :=
    (negative_keywords.filter (fun kw => containsSub kw.data text.data)).length
  let total_count := positive_count + negative_count
  if total_count = 0 then 0
  else ((positive_count : ℚ) - (negative_count : ℚ))
        / ((max 1 (positive_count + negative_count) : ℕ) : ℚ)

/-- `SentimentAnalyzer.analyze`.  `text` is `Option String` so that both
`None` and `""` hit Python's `if not text` guard.  The classifier sees only
`text[:512]`; the keyword score is computed over the whole lowered text; the
final score is clamped to `[-1, 1]`; the confidence is returned as the
classifier produced it. -/
def analyze (clf : Classifier) (text : Option String) : ℚ × ℚ :=
  match text with
  | none => (0, 0)
  | some t =>
    if t = "" then (0, 0)
    else
      let r := clf (t.take 512)
      let confidence := r.2
      let keyword_score := calculate_keyword_score (strLower t)
      let score : ℚ :=
        match r.1 with
        | SentLabel.positive => confidence + keyword_score * (3/10)
        | SentLabel.negative => -confidence + keyword_score * (3/10)
        | SentLabel.neutral => keyword_score * (7/10)
      (max (-1) (min 1 score), confidence)

/-- The accumulator loop of `SentimentAnalyzer.analyze_batch`:
`results = []`, then `results.append(...)` per text, in order. -/
def analyzeBatchLoop (clf : Classifier) :
    List (Option String) → List (ℚ × ℚ) → List (ℚ × ℚ)
  | [], results => results
  | t :: ts, results => analyzeBatchLoop clf ts (results ++ [analyze clf t])

/-- `SentimentAnalyzer.analyze_batch` (each appended dict is modelled by its
(sentiment_score, sentiment_confidence) pair). -/
def analyze_batch (clf : Classifier) (texts : List (Option String)) : List (ℚ × ℚ) :=
  analyzeBatchLoop clf texts []

/-! ## Article store (src/backend/app/database.py) -/

/-- A row of the `articles` table.  `source_url` is `Option String`:
`none` is SQL `NULL`, `some ""` is a present-but-blank URL. -/
structure ArticleRec where
  company_id : Nat
  title : String
  content : String
  source : String
  source_url : Option String
  published_at : String
  sentiment_score : Option ℚ
  sentiment_confidence : Option ℚ
deriving DecidableEq

/-- Does inserting `r` violate the `source_url TEXT UNIQUE` constraint of
`init_database`?  SQLite exempts NULLs from UNIQUE, so only a `some` URL can
collide. -/
def violates_unique (store : List ArticleRec) (r : ArticleRec) : Bool :=
  match r.source_url with
  | none => false
  | some u => store.any (fun a => a.source_url = some u)

/-- `add_article`: attempt the INSERT; an `IntegrityError` (unique-key
violation) returns `False` on the first attempt without retrying; a clean
insert commits and returns `True`.  The result is
(new store, returned bool, attempts used). -/
def add_article (store : List ArticleRec) (r : ArticleRec) :
    List ArticleRec × Bool × Nat :=
  if violates_unique store r then (store, false, 1)
  else (store ++ [r], true, 1)

/-! ## Persisted scores (`scores` table, `save_score` in database.py)

`save_score` is `INSERT OR REPLACE` under `UNIQUE (company_id, date)`:
an upsert keyed by (company_id, date). -/

/-- The payload of a `scores` row (besides its key). -/
structure SavedScore where
  score : ℚ
  article_count : Nat
  avg_sentiment : ℚ
  rank : Nat
deriving DecidableEq

/-- The `scores` table, keyed by (company_id, date). -/
def ScoreStore : Type := Nat × String → Option SavedScore

/-- `save_score`: upsert one row. -/
def save_score (company_id : Nat) (date : String) (v : SavedScore)
    (st : ScoreStore) : ScoreStore :=
  fun k => if (company_id, date) = k then some v else st k

/-! ## ScoreCalculator (src/backend/app/services/score_calculator.py) -/

/-- What `get_articles_for_date` exposes of an article to the calculator:
its company ticker and nullable sentiment score. -/
structure ApiArticle where
  ticker : String
  sentiment_score : Option ℚ
deriving DecidableEq

/-- The per-ticker accumulator dict of `calculate_for_date`:
`{"article_count": ..., "sentiment_scores": [...]}`. -/
structure ApiStats where
  article_count : Nat
  sentiment_scores : List ℚ
deriving DecidableEq

/-- `SENTIMENT_THRESHOLD_POSITIVE` from app/config.py. -/
def SENTIMENT_THRESHOLD_POSITIVE : ℚ := 5/100

/-- `SENTIMENT_THRESHOLD_NEGATIVE` from app/config.py. -/
def SENTIMENT_THRESHOLD_NEGATIVE : ℚ := -(5/100)

/-- First-match lookup in an insertion-ordered association list
(a Python dict keyed by `κ`). -/
def afind {κ δ : Type} [DecidableEq κ] (k : κ) : List (κ × δ) → Option δ
  | [] => none
  | (k', d) :: es => if k' = k then some d else afind k es

/-- Create the entry for `k` with default `d0` if it is absent
(`if k not in dict: dict[k] = d0`). -/
def aensure {κ δ : Type} [DecidableEq κ] (k : κ) (d0 : δ)
    (es : List (κ × δ)) : List (κ × δ) :=
  if es.any (fun e => e.1 = k) then es else es ++ [(k, d0)]

/-- Update the (first) entry for `k` in place. -/
def aupdate {κ δ : Type} [DecidableEq κ] (k : κ) (f : δ → δ) :
    List (κ × δ) → List (κ × δ)
  | [] => []
  | (k', d) :: es =>
    if k' = k then (k', f d) :: es else (k', d) :: aupdate k f es

/-- One iteration of the grouping loop in `calculate_for_date`:
ensure the ticker's entry, always bump `article_count`, and append the
sentiment score when it is not `None`. -/
def apiGroupStep (es : List (String × ApiStats)) (a : ApiArticle) :
    List (String × ApiStats) :=
  aupdate a.ticker
    (fun d =>
      match a.sentiment_score with
      | some s => ⟨d.article_count + 1, d.sentiment_scores ++ [s]⟩
      | none => ⟨d.article_count + 1, d.sentiment_scores⟩)
    (aensure a.ticker ⟨0, []⟩ es)

/-- The `company_stats` dict built by `calculate_for_date`. -/
def apiGroup (articles : List ApiArticle) : List (String × ApiStats) :=
  articles.foldl apiGroupStep []

/-- One scored row produced by `ScoreCalculator._calculate_scores`
(the appended dict, with `rank` filled in afterwards). -/
structure ApiScoreRow where
  ticker : String
  score : ℚ
  article_count : Nat
  avg_sentiment : ℚ
  positive_count : Nat
  negative_count : Nat
  rank : Nat
deriving DecidableEq

/-- The body of the `for ticker, stats in company_stats.items()` loop of
`_calculate_scores`: composite = `sentiment_ratio * 100 + avg_sentiment * 50`
where `sentiment_ratio = (positive_count - negative_count) / article_count`.
No time decay is involved. -/
def apiScoreOf (ticker : String) (stats : ApiStats) : ApiScoreRow :=
  let avg_sentiment : ℚ :=
    if stats.sentiment_scores = [] then 0
    else stats.sentiment_scores.sum / (stats.sentiment_scores.length : ℚ)
  let positive_count :=
    (stats.sentiment_scores.filter
      (fun s => SENTIMENT_THRESHOLD_POSITIVE < s)).length
  let negative_count :=
    (stats.sentiment_scores.filter
      (fun s => s < SENTIMENT_THRESHOLD_NEGATIVE)).length
  let sentiment_ratio : ℚ :=
    if 0 < stats.article_count then
      ((positive_count : ℚ) - (negative_count : ℚ)) / (stats.article_count : ℚ)
    else 0
  ⟨ticker, sentiment_ratio * 100 + avg_sentiment * 50,
   stats.article_count, avg_sentiment, positive_count, negative_count, 0⟩

/-- Insert into an already (stably, descendingly) sorted list, keeping the
inserted element before later elements of equal score — the behaviour of
Python's stable `list.sort(key=score, reverse=True)`. -/
def insertDescBy {α : Type} (f : α → ℚ) (x : α) : List α → List α
  | [] => [x]
  | y :: ys => if f y ≤ f x then x :: y :: ys else y :: insertDescBy f x ys

/-- Stable sort, descending on `f`. -/
def sortDescBy {α : Type} (f : α → ℚ) : List α → List α
  | [] => []
  | x :: xs => insertDescBy f x (sortDescBy f xs)

/-- `for rank, item in enumerate(sorted_scores, 1): item["rank"] = rank`. -/
def assignRanksApi : Nat → List ApiScoreRow → List ApiScoreRow
  | _, [] => []
  | r, e :: es =>
    ⟨e.ticker, e.score, e.article_count, e.avg_sentiment,
     e.positive_count, e.negative_count, r⟩ :: assignRanksApi (r + 1) es

/-- `ScoreCalculator._calculate_scores`: score every grouped company, sort by
score descending (stable), then assign dense ranks starting at 1. -/
def calculate_scores (company_stats : List (String × ApiStats)) :
    List ApiScoreRow :=
  assignRanksApi 1
    (sortDescBy (fun r => r.score) (company_stats.map (fun p => apiScoreOf p.1 p.2)))

/-- Result dict of `ScoreCalculator.calculate_for_date`. -/
structure ApiCalcResult where
  companies_scored : Nat
  total_articles : Nat
  scores : List ApiScoreRow
deriving DecidableEq

/-- `ScoreCalculator.calculate_for_date`: empty article list short-circuits
with zero counts; otherwise group, score, and report. -/
def calculate_for_date (articles : List ApiArticle) : ApiCalcResult :=
  if articles = [] then ⟨0, 0, []⟩
  else
    let scores := calculate_scores (apiGroup articles)
    ⟨scores.length, articles.length, scores⟩

/-! ## The `/scores/calculate/{date}` route (src/backend/app/routes/scores.py) -/

/-- The JSON body returned by the route's `calculate_scores` handler. -/
inductive CalcResponse where
  | noArticles (companies_scored : Nat) (message : String)
  | ok (companies_scored total_articles scores_saved : Nat)
deriving DecidableEq

/-- The persistence loop of the route: for each scored row, look the ticker up
in `companies`; unknown tickers are skipped (`continue`), known ones are
upserted via `save_score` and counted in `scores_saved`. -/
def routeSaveLoop (companies : String → Option Nat) (date : String) :
    List ApiScoreRow → Nat × ScoreStore → Nat × ScoreStore
  | [], acc => acc
  | row :: rows, acc =>
    match companies row.ticker with
    | none => routeSaveLoop companies date rows acc
    | some cid =>
      routeSaveLoop companies date rows
        (acc.1 + 1,
         save_score cid date
           ⟨row.score, row.article_count, row.avg_sentiment, row.rank⟩ acc.2)

/-- The `POST /scores/calculate/{date}` handler: run the calculator; when
nothing was scored answer with the "No articles found" message and leave the
`scores` table untouched; otherwise persist each row and report counts. -/
def route_calculate_scores (companies : String → Option Nat) (date : String)
    (articles : List ApiArticle) (st : ScoreStore) : CalcResponse × ScoreStore :=
  let result := calculate_for_date articles
  if result.companies_scored = 0 then
    (CalcResponse.noArticles 0
      "No articles found for this date. Please fetch news first.", st)
  else
    let saved := routeSaveLoop companies date result.scores (0, st)
    (CalcResponse.ok result.companies_scored result.total_articles saved.1,
     saved.2)

/-! ## Batch aggregation (src/backend/batch/main.py, `_calculate_scores`) -/

/-- An article row as read by the batch `_calculate_scores` query, together
with its company columns.  `hours_ago` is the `(current_time - pub_time)`
difference in hours at the aggregation run time (it may be negative for a
publication timestamp in the future). -/
structure BatchArticle where
  company_id : Nat
  ticker : String
  name : String
  hours_ago : ℚ
  sentiment_score : Option ℚ
deriving DecidableEq

/-- `time_decay = max(0.0, 1.0 - (hours_ago * 0.1))`. -/
def time_decay (hours_ago : ℚ) : ℚ := max 0 (1 - hours_ago * (1/10))

/-- The per-company accumulator dict of the batch `_calculate_scores`:
`{"ticker": ..., "name": ..., "scores": [...], "count": ...}`. -/
structure CompanyData where
  ticker : String
  name : String
  scores : List ℚ
  count : Nat
deriving DecidableEq

/-- The loop state of the batch grouping pass: the `company_scores` dict and
the current value of the loop-local `time_decay` variable (which survives the
loop and is later reused by the avg_sentiment expression). -/
structure GroupState where
  entries : List (Nat × CompanyData)
  last_decay : Option ℚ
deriving DecidableEq

/-- One iteration of `for company_id, ... in articles:` — create the dict
entry if needed; when the sentiment is scored, append
`sentiment_score * time_decay` and bump the count, updating `time_decay`. -/
def processArticle (st : GroupState) (a : BatchArticle) : GroupState :=
  let es := aensure a.company_id ⟨a.ticker, a.name, [], 0⟩ st.entries
  match a.sentiment_score with
  | none => ⟨es, st.last_decay⟩
  | some s =>
    let td := time_decay a.hours_ago
    ⟨aupdate a.company_id
       (fun d => ⟨d.ticker, d.name, d.scores ++ [s * td], d.count + 1⟩) es,
     some td⟩

/-- The grouping pass of the batch `_calculate_scores`. -/
def groupArticles (articles : List BatchArticle) : GroupState :=
  articles.foldl processArticle ⟨[], none⟩

/-- One entry appended to `ranking` by the batch `_calculate_scores`
(`rank` is filled in afterwards). -/
structure RankedCompany where
  company_id : Nat
  score : ℚ
  article_count : Nat
  avg_sentiment : ℚ
  rank : Nat
deriving DecidableEq

/-- The `ranking` construction loop.  For each company with `count > 0`:
`avg_score = sum(scores) / len(scores)` (a `ZeroDivisionError`, modelled as
`none`, if `scores` is empty), and
`avg_sentiment = sum(s / time_decay for s in scores) / len(scores)` — the
`time_decay` here is the variable LEFT OVER from the grouping loop
(`last_decay`): a `NameError` if it was never assigned and a
`ZeroDivisionError` if it is `0.0`, both modelled as `none`. -/
def buildRanking (last_decay : Option ℚ) :
    List (Nat × CompanyData) → Option (List RankedCompany)
  | [] => some []
  | e :: es =>
    if 0 < e.2.count then
      if e.2.scores.length = 0 then none
      else
        match last_decay with
        | none => none
        | some td =>
          if td = 0 then none
          else
            match buildRanking last_decay es with
            | none => none
            | some rest =>
              some (⟨e.1, e.2.scores.sum / (e.2.scores.length : ℚ), e.2.count,
                     (e.2.scores.map (fun s => s / td)).sum /
                       (e.2.scores.length : ℚ), 0⟩ :: rest)
    else buildRanking last_decay es

/-- `for rank, item in enumerate(ranking, 1): item["rank"] = rank`. -/
def assignRanksBatch : Nat → List RankedCompany → List RankedCompany
  | _, [] => []
  | r, e :: es =>
    ⟨e.company_id, e.score, e.article_count, e.avg_sentiment, r⟩ ::
      assignRanksBatch (r + 1) es

/-- `NewsSpYBatchProcessor._calculate_scores` up to persistence: group the
day's articles, build the ranking entries (`none` when Python would raise),
sort by score descending (stable) and assign dense ranks from 1. -/
def batch_calculate_scores (articles : List BatchArticle) :
    Option (List RankedCompany) :=
  let st := groupArticles articles
  match buildRanking st.last_decay st.entries with
  | none => none
  | some ranking =>
    some (assignRanksBatch 1 (sortDescBy (fun r => r.score) ranking))

/-- The persistence loop of the batch `_calculate_scores`: `save_score` for
every ranked row, in rank order. -/
def batchSaveAll (date : String) (rows : List RankedCompany)
    (st : ScoreStore) : ScoreStore :=
  rows.foldl
    (fun s r =>
      save_score r.company_id date
        ⟨r.score, r.article_count, r.avg_sentiment, r.rank⟩ s) st

/-- The batch `_calculate_scores` end to end: when the ranking construction
raises, nothing has been saved (the exception fires before the save loop);
otherwise all rows are upserted. -/
def batch_run (articles : List BatchArticle) (date : String)
    (st : ScoreStore) : ScoreStore :=
  match batch_calculate_scores articles with
  | none => st
  | some rows => batchSaveAll date rows st

/-- The raw (undecayed) sentiment scores of the articles of `cid`, in order —
what the spec means by "that company's scored articles" for the batch
aggregation. -/
def rawSentimentsBatch (cid : Nat) : List BatchArticle → List ℚ
  | [] => []
  | a :: rest =>
    (match a.sentiment_score with
     | some s => if a.company_id = cid then [s] else []
     | none => []) ++ rawSentimentsBatch cid rest

/-- The decayed weighted scores `sentiment_score * time_decay` of the scored
articles of `cid`, in order. -/
def weightedList (cid : Nat) : List BatchArticle → List ℚ
  | [] => []
  | a :: rest =>
    (match a.sentiment_score with
     | some s => if a.company_id = cid then [s * time_decay a.hours_ago] else []
     | none => []) ++ weightedList cid rest

/-- The decay of the last scored article of the list (the final value of the
loop-local `time_decay` variable), if any article was scored at all. -/
def lastDecayOf : List BatchArticle → Option ℚ
  | [] => none
  | a :: rest =>
    match lastDecayOf rest with
    | some td => some td
    | none =>
      match a.sentiment_score with
      | some _ => some (time_decay a.hours_ago)
      | none => none

/-- The raw sentiment scores of the articles of ticker `tk`, in order, as seen
by `ScoreCalculator` (`get_articles_for_date` rows). -/
def rawSentimentsApi (tk : String) : List ApiArticle → List ℚ
  | [] => []
  | a :: rest =>
    (match a.sentiment_score with
     | some s => if a.ticker = tk then [s] else []
     | none => []) ++ rawSentimentsApi tk rest

/-- The (key, payload) pairs a list of API score rows writes through
`save_score`, in write order (rows with tickers absent from the registry are
skipped by the route). -/
def routeWrites (companies : String → Option Nat) (date : String) :
    List ApiScoreRow → List ((Nat × String) × SavedScore)
  | [] => []
  | row :: rows =>
    (match companies row.ticker with
     | none => []
     | some cid =>
       [((cid, date), (⟨row.score, row.article_count, row.avg_sentiment,
                       row.rank⟩ : SavedScore))]) ++
      routeWrites companies date rows

/-- The (key, payload) pairs the batch persistence loop writes, in order. -/
def batchWrites (date : String) : List RankedCompany →
    List ((Nat × String) × SavedScore)
  | [] => []
  | r :: rows =>
    ((r.company_id, date),
     (⟨r.score, r.article_count, r.avg_sentiment, r.rank⟩ : SavedScore)) ::
      batchWrites date rows

/-- Apply a list of upserts in order. -/
def upsertList (kvs : List ((Nat × String) × SavedScore)) (st : ScoreStore) :
    ScoreStore :=
  kvs.foldl (fun s kv => fun k => if kv.1 = k then some kv.2 else s k) st

/-- The last write to key `k` in the list, if any. -/
def findLastWrite : List ((Nat × String) × SavedScore) → Nat × String →
    Option SavedScore
  | [], _ => none
  | kv :: rest, k =>
    match findLastWrite rest k with
    | some v => some v
    | none => if kv.1 = k then some kv.2 else none

/-- The scores list held for company `cid` in a batch grouping state. -/
def scoresAt (es : List (Nat × CompanyData)) (cid : Nat) : List ℚ :=
  match afind cid es with
  | some d => d.scores
  | none => []

/-- The count held for company `cid` in a batch grouping state. -/
def countAt (es : List (Nat × CompanyData)) (cid : Nat) : Nat :=
  match afind cid es with
  | some d => d.count
  | none => 0

/-- The sentiment-score list held for ticker `tk` in the API grouping dict. -/
def sentimentsAt (es : List (String × ApiStats)) (tk : String) : List ℚ :=
  match afind tk es with
  | some d => d.sentiment_scores
  | none => []

/-! ## Concrete fixtures used by witnesses and counterexamples -/

/-- The §8 scenario articles for the batch aggregator: AAPL, sentiments `0.8`
(published 0 hours before the run, decay `1.0`) and `-0.4` (5 hours before,
decay `0.5`). -/
def scenarioArticles : List BatchArticle :=
  [⟨1, "AAPL", "Apple Inc.", 0, some (4/5)⟩,
   ⟨1, "AAPL", "Apple Inc.", 5, some (-(2/5))⟩]

/-- The same scenario as `get_articles_for_date` rows for `ScoreCalculator`
(which never sees publication times). -/
def scenarioApiArticles : List ApiArticle :=
  [⟨"AAPL", some (4/5)⟩, ⟨"AAPL", some (-(2/5))⟩]

/-- A company registry mapping AAPL to company id 1. -/
def demoCompanies : String → Option Nat :=
  fun tk => if tk = "AAPL" then some 1 else none

/-- An empty `scores` table. -/
def emptyScoreStore : ScoreStore := fun _ => none

/-- A classifier stub: always neutral with confidence 1/2. -/
def demoClassifier : Classifier := fun _ => (SentLabel.neutral, 1/2)

/-- Two distinct articles that share a blank (empty-string, non-NULL) URL. -/
def cexArticleA : ArticleRec :=
  ⟨1, "Apple launches product", "body a", "src", some "", "2026-02-16", none, none⟩

/-- Second blank-URL article, different title. -/
def cexArticleB : ArticleRec :=
  ⟨1, "Apple reports earnings", "body b", "src", some "", "2026-02-16", none, none⟩

/-- Two companies for the batch aggregator: company 1's only (scored) article
is 20 hours old (decay 0.0); company 2's is fresh (decay 1.0) and is the
last-processed scored article. -/
def cex10Articles : List BatchArticle :=
  [⟨1, "AAA", "Alpha Corp", 20, some (1/2)⟩,
   ⟨2, "BBB", "Beta Corp", 0, some (1/2)⟩]

/-! ## C8: analyze bounds and empty-text behaviour -/

/-- Claim C8: for every text input, `analyze` returns a score in [-1, 1] and a
confidence in [0, 1] (the latter under the FinBERT pipeline's contract that
its softmax confidence lies in [0, 1]), and empty or null text yields exactly
(0.0, 0.0) rather than an error. -/
theorem analyze_bounds (clf : Classifier)
    (hclf : ∀ t, 0 ≤ (clf t).2 ∧ (clf t).2 ≤ 1) (text : Option String) :
    (-1 ≤ (analyze clf text).1 ∧ (analyze clf text).1 ≤ 1) ∧
    (0 ≤ (analyze clf text).2 ∧ (analyze clf text).2 ≤ 1) ∧
    ((text = none ∨ text = some "") → analyze clf text = (0, 0)) := by
  cases text with
  | none =>
    refine ⟨⟨?_, ?_⟩, ⟨?_, ?_⟩, fun _ => rfl⟩ <;> simp [analyze]
  | some t =>
    by_cases ht : t = ""
    · subst ht
      refine ⟨⟨?_, ?_⟩, ⟨?_, ?_⟩, fun _ => rfl⟩ <;> simp [analyze]
    · have hval : analyze clf (some t) =
          (max (-1) (min 1
            (match (clf (t.take 512)).1 with
             | SentLabel.positive =>
                 (clf (t.take 512)).2 + calculate_keyword_score (strLower t) * (3/10)
             | SentLabel.negative =>
                 -(clf (t.take 512)).2 + calculate_keyword_score (strLower t) * (3/10)
             | SentLabel.neutral => calculate_keyword_score (strLower t) * (7/10))),
           (clf (t.take 512)).2) := by
        simp [analyze, ht]
      rw [hval]
      refine ⟨⟨le_max_left _ _, max_le (by norm_num) (min_le_left _ _)⟩,
              ⟨(hclf (t.take 512)).1, (hclf (t.take 512)).2⟩, fun h => ?_⟩
      rcases h with h | h
      · exact absurd h (by simp)
      · exact absurd (by injection h) ht

/-- Witness for C8 at a concrete classifier and text. -/
theorem analyze_bounds_witness :
    (-1 ≤ (analyze demoClassifier (some "Strong growth reported")).1 ∧
     (analyze demoClassifier (some "Strong growth reported")).1 ≤ 1) ∧
    (0 ≤ (analyze demoClassifier (some "Strong growth reported")).2 ∧
     (analyze demoClassifier (some "Strong growth reported")).2 ≤ 1) ∧
    ((some "Strong growth reported" = (none : Option String) ∨
      some "Strong growth reported" = some "") →
      analyze demoClassifier (some "Strong growth reported") = (0, 0)) :=
  analyze_bounds demoClassifier
    (fun _ => ⟨by norm_num [demoClassifier], by norm_num [demoClassifier]⟩)
    (some "Strong growth reported")

/-! ## C9: analyze_batch is map analyze -/

/-- Claim C9: `analyze_batch(texts)` is order-preserving and element-wise
equal to mapping `analyze` over the list — no cross-text interaction. -/
theorem analyze_batch_eq_map (clf : Classifier) (texts : List (Option String)) :
    analyze_batch clf texts = texts.map (analyze clf) := by
  have h : ∀ ts acc, analyzeBatchLoop clf ts acc = acc ++ ts.map (analyze clf) := by
    intro ts
    induction ts with
    | nil => intro acc; simp [analyzeBatchLoop]
    | cons t ts ih => intro acc; rw [analyzeBatchLoop, ih]; simp
  simpa [analyze_batch] using h texts []

/-! ## C5: duplicate insert is a single-row, non-retried no-op -/

/-- Claim C5: inserting the same record twice with the same (non-NULL) dedup
key leaves exactly one matching row; the second call returns `False` on its
first attempt (no retry) instead of raising. -/
theorem add_article_duplicate_noop (store : List ArticleRec) (r : ArticleRec)
    (u : String) (hurl : r.source_url = some u)
    (hfirst : (add_article store r).2.1 = true) :
    add_article (add_article store r).1 r = ((add_article store r).1, false, 1) ∧
    ((add_article store r).1.filter
       (fun a => a.source_url = some u)).length = 1 := by
  have hviol : violates_unique store r = false := by
    by_contra h
    rw [Bool.not_eq_false] at h
    rw [add_article, if_pos h] at hfirst
    exact Bool.false_ne_true hfirst
  have hnone : ∀ a ∈ store, ¬ (a.source_url = some u) := by
    intro a ha hcontra
    simp only [violates_unique, hurl] at hviol
    have : store.any (fun a => a.source_url = some u) = true :=
      List.any_eq_true.mpr ⟨a, ha, by simp [hcontra]⟩
    rw [this] at hviol
    exact Bool.noConfusion hviol
  have hfst : (add_article store r).1 = store ++ [r] := by
    rw [add_article, if_neg (by simp [hviol])]
  constructor
  · have hviol2 : violates_unique (store ++ [r]) r = true := by
      rw [violates_unique, hurl]
      exact List.any_eq_true.mpr ⟨r, by simp, by simp [hurl]⟩
    rw [hfst, add_article, if_pos hviol2]
  · rw [hfst, List.filter_append]
    have h1 : store.filter (fun a => decide (a.source_url = some u)) = [] := by
      rw [List.filter_eq_nil_iff]
      intro a ha
      simpa using hnone a ha
    simp [h1, hurl]

/-- Witness for C5 at a concrete store and article. -/
theorem add_article_duplicate_noop_witness :
    add_article (add_article [] cexArticleA).1 cexArticleA
        = ((add_article [] cexArticleA).1, false, 1) ∧
    ((add_article [] cexArticleA).1.filter
       (fun a => a.source_url = some "")).length = 1 :=
  add_article_duplicate_noop [] cexArticleA "" (by decide) (by decide)

/-! ## C6: what the dedup key actually is -/

/-- Counterexample to claim C6: two distinct articles with blank (empty) URLs
and different titles are NOT both stored — the second insert collides on the
`source_url` UNIQUE constraint and is rejected as a duplicate.  There is no
(ticker, normalized title) hash fallback in `add_article`. -/
theorem dedup_key_blank_url_collision :
    cexArticleA.title ≠ cexArticleB.title ∧
    cexArticleA.source_url = some "" ∧
    cexArticleB.source_url = some "" ∧
    (add_article [] cexArticleA).2.1 = true ∧
    add_article (add_article [] cexArticleA).1 cexArticleB
      = ([cexArticleA], false, 1) := by
  refine ⟨by decide, rfl, rfl, by decide, by decide⟩

/-- Amended C6: the dedup key enforced unique by the store is the source URL
alone — an insert succeeds exactly when the URL is NULL (NULLs are exempt
from SQLite UNIQUE) or no stored row carries the same URL; the title never
participates, so two blank-URL articles collide whatever their titles. -/
theorem add_article_success_iff_url_free (store : List ArticleRec)
    (r : ArticleRec) :
    (add_article store r).2.1 = true ↔
      (r.source_url = none ∨ ∀ a ∈ store, a.source_url ≠ r.source_url) := by
  rw [add_article]
  cases hr : r.source_url with
  | none =>
    have hviol : violates_unique store r = false := by
      rw [violates_unique, hr]
    rw [if_neg (by simp [hviol])]
    simp
  | some u =>
    by_cases hviol : violates_unique store r = true
    · rw [if_pos hviol]
      rw [violates_unique, hr, List.any_eq_true] at hviol
      obtain ⟨a, ha, hau⟩ := hviol
      simp only [decide_eq_true_eq] at hau
      simp only [show (false = true) = False by simp, false_iff]
      push_neg
      refine ⟨by simp [hr], a, ha, by simp [hau, hr]⟩
    · rw [if_neg (by simpa using hviol)]
      simp only [show (true = true) = True by simp, true_iff]
      right
      intro a ha hcontra
      rw [violates_unique, hr] at hviol
      exact hviol (List.any_eq_true.mpr ⟨a, ha, by simp [hcontra, hr]⟩)

/-! ## C7: aggregation trigger on an empty date -/

/-- Counterexample to claim C7: a date with zero SCORED articles (but one
unscored article) does not report `companies_scored = 0` — the route ranks
the company with score 0 and persists a DailyScore row for it. -/
theorem route_unscored_articles_persists :
    rawSentimentsApi "AAPL" [⟨"AAPL", none⟩] = [] ∧
    (route_calculate_scores demoCompanies "2026-02-16"
        [⟨"AAPL", none⟩] emptyScoreStore).1 = CalcResponse.ok 1 1 1 ∧
    (route_calculate_scores demoCompanies "2026-02-16"
        [⟨"AAPL", none⟩] emptyScoreStore).2 (1, "2026-02-16")
      = some ⟨0, 1, 0, 1⟩ := by
  refine ⟨rfl, ?_, ?_⟩ <;>
    norm_num [route_calculate_scores, calculate_for_date, calculate_scores,
      apiGroup, apiGroupStep, aensure, aupdate, apiScoreOf,
      SENTIMENT_THRESHOLD_POSITIVE, SENTIMENT_THRESHOLD_NEGATIVE,
      sortDescBy, insertDescBy, assignRanksApi, routeSaveLoop, save_score,
      demoCompanies, emptyScoreStore, List.foldl, List.any, List.filter]

/-- Amended C7: for a date with zero articles at all, the aggregation trigger
reports `companies_scored = 0` with the "No articles found" message, leaves
the `scores` table untouched, and raises no exception (the handler is total).
(When unscored articles do exist, their companies are ranked with composite
score 0 and rows are persisted — see the counterexample.) -/
theorem route_no_articles_reports_zero (companies : String → Option Nat)
    (date : String) (st : ScoreStore) :
    route_calculate_scores companies date [] st =
      (CalcResponse.noArticles 0
        "No articles found for this date. Please fetch news first.", st) := rfl

/-! ## C3: re-running aggregation — upsert machinery -/

theorem upsertList_apply (kvs : List ((Nat × String) × SavedScore)) :
    ∀ (st : ScoreStore) (k : Nat × String),
      upsertList kvs st k =
        match findLastWrite kvs k with
        | some v => some v
        | none => st k := by
  induction kvs with
  | nil => intro st k; rfl
  | cons kv rest ih =>
    intro st k
    have hstep : upsertList (kv :: rest) st =
        upsertList rest (fun k' => if kv.1 = k' then some kv.2 else st k') := rfl
    rw [hstep, ih]
    cases h : findLastWrite rest k with
    | some v => simp [findLastWrite, h]
    | none =>
      simp only [findLastWrite, h]
      by_cases hk : kv.1 = k <;> simp [hk]

/-- Applying the same batch of upserts twice is the same as applying it
once. -/
theorem upsertList_idem (kvs : List ((Nat × String) × SavedScore))
    (st : ScoreStore) :
    upsertList kvs (upsertList kvs st) = upsertList kvs st := by
  funext k
  rw [upsertList_apply, upsertList_apply]
  cases h : findLastWrite kvs k <;> simp [h]

/-- The route's save loop is: count the non-skipped rows, and upsert their
writes in order. -/
theorem routeSaveLoop_eq (companies : String → Option Nat) (date : String) :
    ∀ (rows : List ApiScoreRow) (n : Nat) (st : ScoreStore),
      routeSaveLoop companies date rows (n, st) =
        (n + (routeWrites companies date rows).length,
         upsertList (routeWrites companies date rows) st) := by
  intro rows
  induction rows with
  | nil => intro n st; rfl
  | cons row rows ih =>
    intro n st
    cases h : companies row.ticker with
    | none =>
      simp only [routeSaveLoop, h, routeWrites, List.nil_append]
      exact ih n st
    | some cid =>
      simp only [routeSaveLoop, h, routeWrites, List.singleton_append]
      rw [ih]
      simp only [List.length_cons, Prod.mk.injEq]
      exact ⟨by omega, rfl⟩

/-- The batch persistence loop is `upsertList` of its writes. -/
theorem batchSaveAll_eq (date : String) :
    ∀ (rows : List RankedCompany) (st : ScoreStore),
      batchSaveAll date rows st = upsertList (batchWrites date rows) st := by
  intro rows
  induction rows with
  | nil => intro st; rfl
  | cons r rows ih =>
    intro st
    have h1 : batchSaveAll date (r :: rows) st =
        batchSaveAll date rows
          (save_score r.company_id date
            ⟨r.score, r.article_count, r.avg_sentiment, r.rank⟩ st) := rfl
    rw [h1, ih]
    rfl

/-- Claim C3: running the aggregation twice on unchanged article data yields
identical DailyScore rows.  For the API trigger, the second run returns the
same response and leaves the `scores` table exactly as after the first run;
for the batch aggregator (whose run time enters through the articles'
`hours_ago`, held fixed along with the article data), persisting the run's
rows twice equals persisting them once. -/
theorem aggregation_rerun_identical (companies : String → Option Nat)
    (date : String) (articles : List ApiArticle) (st : ScoreStore)
    (barticles : List BatchArticle) :
    route_calculate_scores companies date articles
        (route_calculate_scores companies date articles st).2 =
      route_calculate_scores companies date articles st ∧
    batch_run barticles date (batch_run barticles date st) =
      batch_run barticles date st := by
  constructor
  · by_cases h : (calculate_for_date articles).companies_scored = 0
    · simp [route_calculate_scores, h]
    · simp only [route_calculate_scores, if_neg h]
      rw [routeSaveLoop_eq, routeSaveLoop_eq]
      simp [upsertList_idem]
  · cases h : batch_calculate_scores barticles with
    | none => simp [batch_run, h]
    | some rows =>
      simp only [batch_run, h]
      rw [batchSaveAll_eq, batchSaveAll_eq, upsertList_idem]

/-- Witness for C3 at concrete inputs (the §8 scenario for both paths). -/
theorem aggregation_rerun_identical_witness :
    route_calculate_scores demoCompanies "2026-02-16" scenarioApiArticles
        (route_calculate_scores demoCompanies "2026-02-16" scenarioApiArticles
          emptyScoreStore).2 =
      route_calculate_scores demoCompanies "2026-02-16" scenarioApiArticles
        emptyScoreStore ∧
    batch_run scenarioArticles "2026-02-16"
        (batch_run scenarioArticles "2026-02-16" emptyScoreStore) =
      batch_run scenarioArticles "2026-02-16" emptyScoreStore :=
  aggregation_rerun_identical demoCompanies "2026-02-16" scenarioApiArticles
    emptyScoreStore scenarioArticles

/-! ## Association-list lemmas (shared by both grouping passes) -/

theorem afind_append {κ δ : Type} [DecidableEq κ] (k : κ) :
    ∀ (es es' : List (κ × δ)),
      afind k (es ++ es') =
        match afind k es with
        | some d => some d
        | none => afind k es' := by
  intro es es'
  induction es with
  | nil => rfl
  | cons e es ih =>
    rw [List.cons_append, afind, afind]
    by_cases hk : e.1 = k
    · simp only [if_pos hk]
    · simp only [if_neg hk]
      exact ih

theorem any_key_iff_afind_isSome {κ δ : Type} [DecidableEq κ] (k : κ) :
    ∀ es : List (κ × δ),
      (es.any (fun e => e.1 = k)) = true ↔ (afind k es).isSome = true := by
  intro es
  induction es with
  | nil => simp [afind]
  | cons e es ih =>
    rw [List.any_cons, afind]
    by_cases hk : e.1 = k
    · simp [hk]
    · simp only [if_neg hk]
      rw [decide_eq_false hk]
      simp only [Bool.false_or]
      exact ih

theorem afind_aensure_self {κ δ : Type} [DecidableEq κ] (k : κ) (d0 : δ)
    (es : List (κ × δ)) :
    afind k (aensure k d0 es) =
      match afind k es with
      | some d => some d
      | none => some d0 := by
  rw [aensure]
  by_cases h : (es.any (fun e => e.1 = k)) = true
  · rw [if_pos h]
    rcases Option.isSome_iff_exists.mp ((any_key_iff_afind_isSome k es).mp h)
      with ⟨d, hd⟩
    rw [hd]
  · rw [if_neg h, afind_append k es [(k, d0)]]
    have : afind k es = none := by
      cases hfind : afind k es with
      | none => rfl
      | some d =>
        exact absurd ((any_key_iff_afind_isSome k es).mpr (by rw [hfind]; rfl)) h
    rw [this, afind, if_pos rfl]

theorem afind_aensure_ne {κ δ : Type} [DecidableEq κ] {k k' : κ} (d0 : δ)
    (es : List (κ × δ)) (hne : k ≠ k') :
    afind k (aensure k' d0 es) = afind k es := by
  rw [aensure]
  by_cases h : (es.any (fun e => e.1 = k')) = true
  · rw [if_pos h]
  · rw [if_neg h, afind_append k es [(k', d0)]]
    cases hfind : afind k es with
    | some d => rfl
    | none =>
      rw [afind, if_neg (fun hkk : k' = k => hne hkk.symm)]
      rfl

theorem afind_aupdate_self {κ δ : Type} [DecidableEq κ] (k : κ) (f : δ → δ) :
    ∀ es : List (κ × δ), afind k (aupdate k f es) = (afind k es).map f := by
  intro es
  induction es with
  | nil => rfl
  | cons e es ih =>
    rw [aupdate.eq_def]
    by_cases hk : e.1 = k
    · cases e with
      | mk k1 d1 =>
        simp only at hk
        simp [afind, hk]
    · cases e with
      | mk k1 d1 =>
        simp only at hk
        simp only [if_neg hk, afind, ih]

theorem afind_aupdate_ne {κ δ : Type} [DecidableEq κ] {k k' : κ} (f : δ → δ)
    (hne : k ≠ k') : ∀ es : List (κ × δ),
      afind k (aupdate k' f es) = afind k es := by
  intro es
  induction es with
  | nil => rfl
  | cons e es ih =>
    cases e with
    | mk k1 d1 =>
      rw [aupdate]
      by_cases hk : k1 = k'
      · subst hk
        rw [if_pos rfl, afind, afind,
          if_neg (fun hkk : k1 = k => hne hkk.symm),
          if_neg (fun hkk : k1 = k => hne hkk.symm)]
      · rw [if_neg hk, afind, afind]
        by_cases hk2 : k1 = k
        · rw [if_pos hk2, if_pos hk2]
        · rw [if_neg hk2, if_neg hk2, ih]

theorem keys_aupdate {κ δ : Type} [DecidableEq κ] (k : κ) (f : δ → δ) :
    ∀ es : List (κ × δ),
      (aupdate k f es).map Prod.fst = es.map Prod.fst := by
  intro es
  induction es with
  | nil => rfl
  | cons e es ih =>
    rw [aupdate.eq_def]
    cases e with
    | mk k1 d1 =>
      by_cases hk : k1 = k
      · simp [if_pos hk]
      · simp only [if_neg hk, List.map_cons, ih]

theorem keys_aensure_nodup {κ δ : Type} [DecidableEq κ] (k : κ) (d0 : δ)
    (es : List (κ × δ)) (h : (es.map Prod.fst).Nodup) :
    ((aensure k d0 es).map Prod.fst).Nodup := by
  rw [aensure]
  by_cases hk : (es.any (fun e => e.1 = k)) = true
  · rw [if_pos hk]; exact h
  · rw [if_neg hk, List.map_append]
    rw [List.nodup_append]
    refine ⟨h, List.nodup_singleton k, ?_⟩
    intro x hx hx'
    simp only [List.map_cons, List.map_nil, List.mem_singleton] at hx'
    subst hx'
    rcases List.mem_map.mp hx with ⟨e, he, hek⟩
    exact hk (List.any_eq_true.mpr ⟨e, he, by simp [hek]⟩)

theorem mem_of_afind_eq_some {κ δ : Type} [DecidableEq κ] {k : κ} {d : δ} :
    ∀ {es : List (κ × δ)}, afind k es = some d → (k, d) ∈ es := by
  intro es
  induction es with
  | nil => intro h; exact absurd h (by simp [afind])
  | cons e es ih =>
    intro h
    cases e with
    | mk k1 d1 =>
      rw [afind] at h
      by_cases hk : k1 = k
      · rw [if_pos hk] at h
        injection h with h2
        exact List.mem_cons.mpr (Or.inl (by rw [hk, h2]))
      · rw [if_neg hk] at h
        exact List.mem_cons_of_mem _ (ih h)

theorem afind_eq_some_of_mem_nodup {κ δ : Type} [DecidableEq κ] {k : κ} {d : δ} :
    ∀ {es : List (κ × δ)}, (es.map Prod.fst).Nodup → (k, d) ∈ es →
      afind k es = some d := by
  intro es
  induction es with
  | nil => intro _ h; exact absurd h (by simp)
  | cons e es ih =>
    intro hnodup hmem
    rw [List.map_cons, List.nodup_cons] at hnodup
    rcases List.mem_cons.mp hmem with h | h
    · rw [← h, afind, if_pos rfl]
    · rw [afind]
      by_cases hk : e.1 = k
      · exfalso
        apply hnodup.1
        rw [hk]
        exact List.mem_map.mpr ⟨(k, d), h, rfl⟩
      · rw [if_neg hk]
        exact ih hnodup.2 h

theorem afind_isSome_iff_mem_keys {κ δ : Type} [DecidableEq κ] (k : κ) :
    ∀ es : List (κ × δ),
      (afind k es).isSome = true ↔ k ∈ es.map Prod.fst := by
  intro es
  induction es with
  | nil => simp [afind]
  | cons e es ih =>
    rw [afind, List.map_cons, List.mem_cons]
    by_cases hk : e.1 = k
    · simp [hk]
    · simp only [if_neg hk, ih]
      constructor
      · intro h; right; exact h
      · intro h
        rcases h with h | h
        · exact absurd h.symm hk
        · exact h

/-! ## Batch grouping characterization -/

theorem scoresAt_aensure (es : List (Nat × CompanyData)) (k : Nat)
    (tk nm : String) (cid : Nat) :
    scoresAt (aensure k ⟨tk, nm, [], 0⟩ es) cid = scoresAt es cid := by
  by_cases hk : cid = k
  · subst hk
    rw [scoresAt, afind_aensure_self]
    cases h : afind cid es with
    | some d => rw [scoresAt, h]
    | none => rw [scoresAt, h]
  · rw [scoresAt, afind_aensure_ne _ es hk, scoresAt]

theorem countAt_aensure (es : List (Nat × CompanyData)) (k : Nat)
    (tk nm : String) (cid : Nat) :
    countAt (aensure k ⟨tk, nm, [], 0⟩ es) cid = countAt es cid := by
  by_cases hk : cid = k
  · subst hk
    rw [countAt, afind_aensure_self]
    cases h : afind cid es with
    | some d => rw [countAt, h]
    | none => rw [countAt, h]
  · rw [countAt, afind_aensure_ne _ es hk, countAt]

theorem scoresAt_processArticle (st : GroupState) (a : BatchArticle) (cid : Nat) :
    scoresAt (processArticle st a).entries cid =
      scoresAt st.entries cid ++
        (match a.sentiment_score with
         | some s =>
           if a.company_id = cid then [s * time_decay a.hours_ago] else []
         | none => []) := by
  cases ha : a.sentiment_score with
  | none =>
    simp only [processArticle, ha]
    rw [scoresAt_aensure, List.append_nil]
  | some s =>
    simp only [processArticle, ha]
    by_cases hk : cid = a.company_id
    · subst hk
      rw [if_pos rfl, scoresAt, afind_aupdate_self, afind_aensure_self]
      cases h : afind a.company_id st.entries with
      | some d => rw [scoresAt, h]; rfl
      | none => rw [scoresAt, h, List.nil_append]; rfl
    · rw [if_neg (fun h2 : a.company_id = cid => hk h2.symm), List.append_nil,
        scoresAt, afind_aupdate_ne _ hk, afind_aensure_ne _ st.entries hk,
        scoresAt]

theorem countAt_processArticle (st : GroupState) (a : BatchArticle) (cid : Nat) :
    countAt (processArticle st a).entries cid =
      countAt st.entries cid +
        (match a.sentiment_score with
         | some s =>
           if a.company_id = cid then [s * time_decay a.hours_ago] else []
         | none => ([] : List ℚ)).length := by
  cases ha : a.sentiment_score with
  | none =>
    simp only [processArticle, ha]
    rw [countAt_aensure]
    rfl
  | some s =>
    simp only [processArticle, ha]
    by_cases hk : cid = a.company_id
    · subst hk
      rw [if_pos rfl, countAt, afind_aupdate_self, afind_aensure_self]
      cases h : afind a.company_id st.entries with
      | some d => rw [countAt, h]; rfl
      | none => rw [countAt, h]; rfl
    · rw [if_neg (fun h2 : a.company_id = cid => hk h2.symm), countAt,
        afind_aupdate_ne _ hk, afind_aensure_ne _ st.entries hk, countAt]
      rfl

theorem scoresAt_groupFold :
    ∀ (arts : List BatchArticle) (st : GroupState) (cid : Nat),
      scoresAt (arts.foldl processArticle st).entries cid =
        scoresAt st.entries cid ++ weightedList cid arts := by
  intro arts
  induction arts with
  | nil => intro st cid; rw [List.foldl_nil, weightedList, List.append_nil]
  | cons a arts ih =>
    intro st cid
    rw [List.foldl_cons, ih, scoresAt_processArticle, weightedList,
      List.append_assoc]

theorem countAt_groupFold :
    ∀ (arts : List BatchArticle) (st : GroupState) (cid : Nat),
      countAt (arts.foldl processArticle st).entries cid =
        countAt st.entries cid + (weightedList cid arts).length := by
  intro arts
  induction arts with
  | nil => intro st cid; rw [List.foldl_nil, weightedList]; rfl
  | cons a arts ih =>
    intro st cid
    rw [List.foldl_cons, ih, countAt_processArticle, weightedList,
      List.length_append, Nat.add_assoc]

theorem scoresAt_groupArticles (arts : List BatchArticle) (cid : Nat) :
    scoresAt (groupArticles arts).entries cid = weightedList cid arts := by
  rw [groupArticles, scoresAt_groupFold]
  rfl

theorem countAt_groupArticles (arts : List BatchArticle) (cid : Nat) :
    countAt (groupArticles arts).entries cid = (weightedList cid arts).length := by
  rw [groupArticles, countAt_groupFold]
  simp [countAt, afind]

theorem lastDecay_groupFold :
    ∀ (arts : List BatchArticle) (st : GroupState),
      (arts.foldl processArticle st).last_decay =
        match lastDecayOf arts with
        | some td => some td
        | none => st.last_decay := by
  intro arts
  induction arts with
  | nil => intro st; rfl
  | cons a arts ih =>
    intro st
    rw [List.foldl_cons, ih, lastDecayOf]
    have hstep : (processArticle st a).last_decay =
        match a.sentiment_score with
        | some _ => some (time_decay a.hours_ago)
        | none => st.last_decay := by
      rw [processArticle]
      cases a.sentiment_score with
      | none => rfl
      | some s => rfl
    cases hl : lastDecayOf arts with
    | some td => rfl
    | none =>
      rw [hstep]
      cases a.sentiment_score with
      | none => rfl
      | some s => rfl

theorem lastDecay_groupArticles (arts : List BatchArticle) :
    (groupArticles arts).last_decay = lastDecayOf arts := by
  rw [groupArticles, lastDecay_groupFold]
  cases lastDecayOf arts with
  | none => rfl
  | some td => rfl

theorem keys_groupFold_nodup :
    ∀ (arts : List BatchArticle) (st : GroupState),
      (st.entries.map Prod.fst).Nodup →
      (((arts.foldl processArticle st).entries.map Prod.fst)).Nodup := by
  intro arts
  induction arts with
  | nil => intro st h; exact h
  | cons a arts ih =>
    intro st h
    rw [List.foldl_cons]
    apply ih
    rw [processArticle]
    cases a.sentiment_score with
    | none => exact keys_aensure_nodup _ _ _ h
    | some s =>
      rw [keys_aupdate]
      exact keys_aensure_nodup _ _ _ h

theorem keys_groupArticles_nodup (arts : List BatchArticle) :
    (((groupArticles arts).entries.map Prod.fst)).Nodup :=
  keys_groupFold_nodup arts ⟨[], none⟩ List.nodup_nil

/-! ## Ranking-construction lemmas -/

theorem buildRanking_cons (td : Option ℚ) (e : Nat × CompanyData)
    (es : List (Nat × CompanyData)) :
    buildRanking td (e :: es) =
      if 0 < e.2.count then
        if e.2.scores.length = 0 then none
        else
          match td with
          | none => none
          | some t =>
            if t = 0 then none
            else
              match buildRanking td es with
              | none => none
              | some rest =>
                some (⟨e.1, e.2.scores.sum / (e.2.scores.length : ℚ), e.2.count,
                       (e.2.scores.map (fun s => s / t)).sum /
                         (e.2.scores.length : ℚ), 0⟩ :: rest)
      else buildRanking td es := rfl

theorem buildRanking_mem :
    ∀ (td : Option ℚ) (es : List (Nat × CompanyData)) (l : List RankedCompany),
      buildRanking td es = some l → ∀ r ∈ l,
        ∃ d : CompanyData, (r.company_id, d) ∈ es ∧ 0 < d.count ∧
          r.score = d.scores.sum / (d.scores.length : ℚ) ∧
          r.article_count = d.count := by
  intro td es
  induction es with
  | nil =>
    intro l hl r hr
    rw [buildRanking] at hl
    injection hl with hl
    subst hl
    cases hr
  | cons e es ih =>
    intro l hl r hr
    rw [buildRanking_cons] at hl
    split at hl
    · rename_i hc
      split at hl
      · exact absurd hl (by simp)
      · split at hl
        · exact absurd hl (by simp)
        · rename_i t htd
          split at hl
          · exact absurd hl (by simp)
          · split at hl
            · exact absurd hl (by simp)
            · rename_i rest hrest
              injection hl with hl
              subst hl
              rcases List.mem_cons.mp hr with hhead | htail
              · subst hhead
                exact ⟨e.2, List.mem_cons.mpr (Or.inl rfl), hc, rfl, rfl⟩
              · rcases ih rest hrest r htail with ⟨d', hd', h2⟩
                exact ⟨d', List.mem_cons_of_mem _ hd', h2⟩
    · rcases ih l hl r hr with ⟨d', hd', h2⟩
      exact ⟨d', List.mem_cons_of_mem _ hd', h2⟩

theorem buildRanking_map_cid :
    ∀ (td : Option ℚ) (es : List (Nat × CompanyData)) (l : List RankedCompany),
      buildRanking td es = some l →
      l.map (fun r => r.company_id) =
        (es.filter (fun e => 0 < e.2.count)).map Prod.fst := by
  intro td es
  induction es with
  | nil =>
    intro l hl
    rw [buildRanking] at hl
    injection hl with hl
    subst hl
    rfl
  | cons e es ih =>
    intro l hl
    rw [buildRanking_cons] at hl
    split at hl
    · rename_i hc
      split at hl
      · exact absurd hl (by simp)
      · split at hl
        · exact absurd hl (by simp)
        · rename_i t htd
          split at hl
          · exact absurd hl (by simp)
          · split at hl
            · exact absurd hl (by simp)
            · rename_i rest hrest
              injection hl with hl
              subst hl
              rw [List.map_cons, ih rest hrest, List.filter_cons,
                if_pos (by simpa using hc), List.map_cons]
    · rename_i hc
      rw [ih l hl, List.filter_cons, if_neg (by simpa using hc)]

theorem buildRanking_zero_of_pos :
    ∀ es : List (Nat × CompanyData), (∃ e ∈ es, 0 < e.2.count) →
      buildRanking (some 0) es = none := by
  intro es
  induction es with
  | nil => intro h; rcases h with ⟨e, he, _⟩; cases he
  | cons e es ih =>
    intro h
    rw [buildRanking_cons]
    by_cases hc : 0 < e.2.count
    · rw [if_pos hc]
      by_cases hlen : e.2.scores.length = 0
      · rw [if_pos hlen]
      · rw [if_neg hlen]
        simp
    · rw [if_neg hc]
      apply ih
      rcases h with ⟨e', he', hpos⟩
      rcases List.mem_cons.mp he' with hhead | htail
      · exfalso
        apply hc
        rw [hhead] at hpos
        exact hpos
      · exact ⟨e', htail, hpos⟩

/-! ## Sorting and rank-assignment lemmas -/

theorem insertDescBy_perm {α : Type} (f : α → ℚ) (x : α) :
    ∀ l : List α, (insertDescBy f x l).Perm (x :: l) := by
  intro l
  induction l with
  | nil => exact List.Perm.refl _
  | cons y ys ih =>
    rw [insertDescBy]
    by_cases h : f y ≤ f x
    · rw [if_pos h]
    · rw [if_neg h]
      exact (ih.cons y).trans (List.Perm.swap x y ys)

theorem sortDescBy_perm {α : Type} (f : α → ℚ) :
    ∀ l : List α, (sortDescBy f l).Perm l := by
  intro l
  induction l with
  | nil => exact List.Perm.refl _
  | cons x xs ih =>
    rw [sortDescBy]
    exact (insertDescBy_perm f x _).trans (ih.cons x)

theorem mem_assignRanksBatch :
    ∀ (k : Nat) (l : List RankedCompany) (r : RankedCompany),
      r ∈ assignRanksBatch k l →
      ∃ e ∈ l, r.company_id = e.company_id ∧ r.score = e.score ∧
        r.article_count = e.article_count ∧
        r.avg_sentiment = e.avg_sentiment := by
  intro k l
  induction l generalizing k with
  | nil => intro r hr; cases hr
  | cons e es ih =>
    intro r hr
    rw [assignRanksBatch] at hr
    rcases List.mem_cons.mp hr with h | h
    · exact ⟨e, List.mem_cons_self e es,
        by rw [h], by rw [h], by rw [h], by rw [h]⟩
    · rcases ih (k + 1) r h with ⟨e', he', hp⟩
      exact ⟨e', List.mem_cons_of_mem _ he', hp⟩

theorem map_rank_assignRanksBatch :
    ∀ (l : List RankedCompany) (k : Nat),
      (assignRanksBatch k l).map (fun r => r.rank) = List.range' k l.length := by
  intro l
  induction l with
  | nil => intro k; rfl
  | cons e es ih =>
    intro k
    rw [assignRanksBatch, List.map_cons, ih, List.length_cons,
      List.range'_succ]

theorem map_cid_assignRanksBatch :
    ∀ (l : List RankedCompany) (k : Nat),
      (assignRanksBatch k l).map (fun r => r.company_id) =
        l.map (fun r => r.company_id) := by
  intro l
  induction l with
  | nil => intro k; rfl
  | cons e es ih =>
    intro k
    rw [assignRanksBatch, List.map_cons, ih, List.map_cons]

theorem mem_assignRanksApi :
    ∀ (k : Nat) (l : List ApiScoreRow) (r : ApiScoreRow),
      r ∈ assignRanksApi k l →
      ∃ e ∈ l, r.ticker = e.ticker ∧ r.score = e.score ∧
        r.article_count = e.article_count ∧
        r.avg_sentiment = e.avg_sentiment := by
  intro k l
  induction l generalizing k with
  | nil => intro r hr; cases hr
  | cons e es ih =>
    intro r hr
    rw [assignRanksApi] at hr
    rcases List.mem_cons.mp hr with h | h
    · exact ⟨e, List.mem_cons_self e es,
        by rw [h], by rw [h], by rw [h], by rw [h]⟩
    · rcases ih (k + 1) r h with ⟨e', he', hp⟩
      exact ⟨e', List.mem_cons_of_mem _ he', hp⟩

theorem map_rank_assignRanksApi :
    ∀ (l : List ApiScoreRow) (k : Nat),
      (assignRanksApi k l).map (fun r => r.rank) = List.range' k l.length := by
  intro l
  induction l with
  | nil => intro k; rfl
  | cons e es ih =>
    intro k
    rw [assignRanksApi, List.map_cons, ih, List.length_cons, List.range'_succ]

/-! ## API grouping characterization -/

theorem sentimentsAt_aensure (es : List (String × ApiStats)) (k : String)
    (tk : String) :
    sentimentsAt (aensure k ⟨0, []⟩ es) tk = sentimentsAt es tk := by
  by_cases hk : tk = k
  · subst hk
    rw [sentimentsAt, afind_aensure_self]
    cases h : afind tk es with
    | some d => rw [sentimentsAt, h]
    | none => rw [sentimentsAt, h]
  · rw [sentimentsAt, afind_aensure_ne _ es hk, sentimentsAt]

theorem sentimentsAt_apiGroupStep (es : List (String × ApiStats))
    (a : ApiArticle) (tk : String) :
    sentimentsAt (apiGroupStep es a) tk =
      sentimentsAt es tk ++
        (match a.sentiment_score with
         | some s => if a.ticker = tk then [s] else []
         | none => []) := by
  cases ha : a.sentiment_score with
  | none =>
    simp only [apiGroupStep, ha]
    by_cases hk : tk = a.ticker
    · subst hk
      rw [sentimentsAt, afind_aupdate_self, afind_aensure_self,
        List.append_nil]
      cases h : afind a.ticker es with
      | some d => rw [sentimentsAt, h]; rfl
      | none => rw [sentimentsAt, h]; rfl
    · rw [sentimentsAt, afind_aupdate_ne _ hk,
        afind_aensure_ne _ es hk, sentimentsAt, List.append_nil]
  | some sc =>
    simp only [apiGroupStep, ha]
    by_cases hk : tk = a.ticker
    · subst hk
      rw [if_pos rfl, sentimentsAt, afind_aupdate_self, afind_aensure_self]
      cases h : afind a.ticker es with
      | some d => rw [sentimentsAt, h]; rfl
      | none => rw [sentimentsAt, h, List.nil_append]; rfl
    · rw [if_neg (fun h2 : a.ticker = tk => hk h2.symm), List.append_nil,
        sentimentsAt, afind_aupdate_ne _ hk, afind_aensure_ne _ es hk,
        sentimentsAt]

theorem sentimentsAt_apiGroupFold :
    ∀ (arts : List ApiArticle) (es : List (String × ApiStats)) (tk : String),
      sentimentsAt (arts.foldl apiGroupStep es) tk =
        sentimentsAt es tk ++ rawSentimentsApi tk arts := by
  intro arts
  induction arts with
  | nil => intro es tk; rw [List.foldl_nil, rawSentimentsApi, List.append_nil]
  | cons a arts ih =>
    intro es tk
    rw [List.foldl_cons, ih, sentimentsAt_apiGroupStep, rawSentimentsApi,
      List.append_assoc]

theorem sentimentsAt_apiGroup (arts : List ApiArticle) (tk : String) :
    sentimentsAt (apiGroup arts) tk = rawSentimentsApi tk arts := by
  rw [apiGroup, sentimentsAt_apiGroupFold]
  rfl

theorem keys_apiGroupFold_nodup :
    ∀ (arts : List ApiArticle) (es : List (String × ApiStats)),
      (es.map Prod.fst).Nodup →
      (((arts.foldl apiGroupStep es).map Prod.fst)).Nodup := by
  intro arts
  induction arts with
  | nil => intro es h; exact h
  | cons a arts ih =>
    intro es h
    rw [List.foldl_cons]
    apply ih
    rw [apiGroupStep, keys_aupdate]
    exact keys_aensure_nodup _ _ _ h

theorem keys_apiGroup_nodup (arts : List ApiArticle) :
    (((apiGroup arts).map Prod.fst)).Nodup :=
  keys_apiGroupFold_nodup arts [] List.nodup_nil

theorem afind_apiGroupStep_isSome (es : List (String × ApiStats))
    (a : ApiArticle) (tk : String) :
    (afind tk (apiGroupStep es a)).isSome = true ↔
      ((afind tk es).isSome = true ∨ a.ticker = tk) := by
  by_cases hk : tk = a.ticker
  · subst hk
    rw [apiGroupStep, afind_aupdate_self, afind_aensure_self]
    cases h : afind a.ticker es with
    | some d => simp [h]
    | none => simp [h]
  · rw [apiGroupStep, afind_aupdate_ne _ hk, afind_aensure_ne _ es hk]
    constructor
    · intro h; exact Or.inl h
    · intro h
      rcases h with h | h
      · exact h
      · exact absurd h.symm hk

theorem afind_apiGroupFold_isSome :
    ∀ (arts : List ApiArticle) (es : List (String × ApiStats)) (tk : String),
      (afind tk (arts.foldl apiGroupStep es)).isSome = true ↔
        ((afind tk es).isSome = true ∨ ∃ a ∈ arts, a.ticker = tk) := by
  intro arts
  induction arts with
  | nil => intro es tk; simp
  | cons a arts ih =>
    intro es tk
    rw [List.foldl_cons, ih, afind_apiGroupStep_isSome]
    constructor
    · intro h
      rcases h with (h | h) | h
      · exact Or.inl h
      · exact Or.inr ⟨a, List.mem_cons_self a arts, h⟩
      · rcases h with ⟨a', ha', htk⟩
        exact Or.inr ⟨a', List.mem_cons_of_mem _ ha', htk⟩
    · intro h
      rcases h with h | ⟨a', ha', htk⟩
      · exact Or.inl (Or.inl h)
      · rcases List.mem_cons.mp ha' with hhead | htail
        · subst hhead; exact Or.inl (Or.inr htk)
        · exact Or.inr ⟨a', htail, htk⟩

theorem afind_apiGroup_isSome (arts : List ApiArticle) (tk : String) :
    (afind tk (apiGroup arts)).isSome = true ↔ ∃ a ∈ arts, a.ticker = tk := by
  rw [apiGroup, afind_apiGroupFold_isSome]
  simp [afind]

/-! ## C1: composite score formula -/

/-- Counterexample to claim C1: at the §8 scenario input, the aggregation run
by the API trigger (`ScoreCalculator._calculate_scores`) produces composite
score 10.0 — computed as `(positive-negative)/count * 100 + avg * 50` with no
time decay — not the decayed mean 0.30 the claim requires of every
aggregation operation. -/
theorem api_composite_scenario_not_decayed_mean :
    calculate_scores (apiGroup scenarioApiArticles)
      = [⟨"AAPL", 10, 2, 1/5, 1, 1, 1⟩] ∧ ((10 : ℚ) ≠ 3/10) := by
  constructor
  · norm_num [calculate_scores, apiGroup, apiGroupStep, aensure, aupdate,
      apiScoreOf, SENTIMENT_THRESHOLD_POSITIVE, SENTIMENT_THRESHOLD_NEGATIVE,
      sortDescBy, insertDescBy, assignRanksApi, scenarioApiArticles,
      List.foldl, List.any, List.filter]
    simp
  · norm_num

/-- Amended C1: in the BATCH aggregation (`NewsSpYBatchProcessor`), every
ranked company's composite score equals the mean of
`sentiment_score_i * time_decay_i` over that company's scored articles of the
day (the witness instantiates the §8 scenario, giving 0.30).  The API
aggregation (`ScoreCalculator`) uses a different formula — see the
counterexample. -/
theorem batch_composite_eq_weighted_mean (arts : List BatchArticle)
    (rows : List RankedCompany) (r : RankedCompany)
    (hrows : batch_calculate_scores arts = some rows) (hr : r ∈ rows) :
    r.score = (weightedList r.company_id arts).sum /
      ((weightedList r.company_id arts).length : ℚ) := by
  simp only [batch_calculate_scores] at hrows
  split at hrows
  · exact absurd hrows (by simp)
  · rename_i ranking hb
    injection hrows with hrows
    subst hrows
    rcases mem_assignRanksBatch 1 _ r hr with ⟨e, he, hcid, hscore, hcount, havg⟩
    have he2 : e ∈ ranking := ((sortDescBy_perm _ ranking).mem_iff).mp he
    rcases buildRanking_mem _ _ _ hb e he2 with ⟨d, hd, hdc, hde, hdc2⟩
    have hfind : afind e.company_id (groupArticles arts).entries = some d :=
      afind_eq_some_of_mem_nodup (keys_groupArticles_nodup arts) hd
    have hsc : d.scores = weightedList e.company_id arts := by
      have hchar := scoresAt_groupArticles arts e.company_id
      rw [scoresAt, hfind] at hchar
      exact hchar
    rw [hcid, hscore, hde, hsc]

/-- Witness for the amended C1 at the §8 scenario: AAPL's composite is the
weighted mean, which evaluates to 0.30. -/
theorem batch_composite_eq_weighted_mean_witness :
    (⟨1, 3/10, 2, 3/5, 1⟩ : RankedCompany).score =
      (weightedList 1 scenarioArticles).sum /
        ((weightedList 1 scenarioArticles).length : ℚ) ∧
    (weightedList 1 scenarioArticles).sum /
        ((weightedList 1 scenarioArticles).length : ℚ) = 3/10 := by
  constructor
  · exact batch_composite_eq_weighted_mean scenarioArticles
      [⟨1, 3/10, 2, 3/5, 1⟩] ⟨1, 3/10, 2, 3/5, 1⟩
      (by norm_num [batch_calculate_scores, groupArticles, processArticle,
        aensure, aupdate, time_decay, max_def, buildRanking, sortDescBy,
        insertDescBy, assignRanksBatch, scenarioArticles, List.foldl,
        List.any])
      (List.mem_singleton.mpr rfl)
  · norm_num [weightedList, scenarioArticles, time_decay, max_def]

/-! ## C2: avg_sentiment -/

/-- Counterexample to claim C2: on the §8 scenario the batch aggregation
reports `avg_sentiment = 0.6` for AAPL (each decayed score divided by the
leftover final `time_decay` 0.5), while the raw mean of its sentiments
`0.8, -0.4` is `0.2`. -/
theorem batch_avg_sentiment_not_raw_mean :
    batch_calculate_scores scenarioArticles = some [⟨1, 3/10, 2, 3/5, 1⟩] ∧
    rawSentimentsBatch 1 scenarioArticles = [4/5, -(2/5)] ∧
    (rawSentimentsBatch 1 scenarioArticles).sum /
      ((rawSentimentsBatch 1 scenarioArticles).length : ℚ) = 1/5 ∧
    ((3 : ℚ)/5 ≠ 1/5) := by
  refine ⟨?_, ?_, ?_, by norm_num⟩
  · norm_num [batch_calculate_scores, groupArticles, processArticle,
      aensure, aupdate, time_decay, max_def, buildRanking, sortDescBy,
      insertDescBy, assignRanksBatch, scenarioArticles, List.foldl,
      List.any]
  · norm_num [rawSentimentsBatch, scenarioArticles]
  · norm_num [rawSentimentsBatch, scenarioArticles]

/-- Amended C2: in the API aggregation (`ScoreCalculator`), every company's
`avg_sentiment` equals the arithmetic mean of its raw (undecayed) sentiment
scores for the date.  The batch aggregation instead divides the decayed
scores by the decay of the globally last-processed scored article — see the
counterexample. -/
theorem api_avg_sentiment_eq_raw_mean (arts : List ApiArticle)
    (r : ApiScoreRow) (hr : r ∈ calculate_scores (apiGroup arts))
    (hne : rawSentimentsApi r.ticker arts ≠ []) :
    r.avg_sentiment = (rawSentimentsApi r.ticker arts).sum /
      ((rawSentimentsApi r.ticker arts).length : ℚ) := by
  rw [calculate_scores] at hr
  rcases mem_assignRanksApi 1 _ r hr with ⟨e, he, htk, hsc, hcnt, havg⟩
  have he2 : e ∈ (apiGroup arts).map (fun p => apiScoreOf p.1 p.2) :=
    ((sortDescBy_perm _ _).mem_iff).mp he
  rcases List.mem_map.mp he2 with ⟨p, hp, hpe⟩
  have hfind : afind p.1 (apiGroup arts) = some p.2 :=
    afind_eq_some_of_mem_nodup (keys_apiGroup_nodup arts) hp
  have hsents : p.2.sentiment_scores = rawSentimentsApi p.1 arts := by
    have hchar := sentimentsAt_apiGroup arts p.1
    rw [sentimentsAt, hfind] at hchar
    exact hchar
  have htk2 : r.ticker = p.1 := by
    rw [htk, ← hpe]
    simp [apiScoreOf]
  have havg2 : e.avg_sentiment =
      if p.2.sentiment_scores = [] then 0
      else p.2.sentiment_scores.sum / (p.2.sentiment_scores.length : ℚ) := by
    rw [← hpe]
    simp only [apiScoreOf]
  rw [htk2] at hne
  rw [htk2, havg, havg2, hsents, if_neg hne]

/-- Witness for the amended C2 at the §8 scenario sentiments: AAPL's
`avg_sentiment` is the raw mean, which evaluates to 0.20. -/
theorem api_avg_sentiment_eq_raw_mean_witness :
    (⟨"AAPL", 10, 2, 1/5, 1, 1, 1⟩ : ApiScoreRow).avg_sentiment =
      (rawSentimentsApi "AAPL" scenarioApiArticles).sum /
        ((rawSentimentsApi "AAPL" scenarioApiArticles).length : ℚ) ∧
    (rawSentimentsApi "AAPL" scenarioApiArticles).sum /
        ((rawSentimentsApi "AAPL" scenarioApiArticles).length : ℚ) = 1/5 := by
  constructor
  · exact api_avg_sentiment_eq_raw_mean scenarioApiArticles
      ⟨"AAPL", 10, 2, 1/5, 1, 1, 1⟩
      (by
        have hev : calculate_scores (apiGroup scenarioApiArticles)
            = [⟨"AAPL", 10, 2, 1/5, 1, 1, 1⟩] := by
          norm_num [calculate_scores, apiGroup, apiGroupStep, aensure,
            aupdate, apiScoreOf, SENTIMENT_THRESHOLD_POSITIVE,
            SENTIMENT_THRESHOLD_NEGATIVE, sortDescBy, insertDescBy,
            assignRanksApi, scenarioApiArticles, List.foldl, List.any,
            List.filter]
          simp
        rw [hev]
        exact List.mem_singleton.mpr rfl)
      (by simp [rawSentimentsApi, scenarioApiArticles])
  · norm_num [rawSentimentsApi, scenarioApiArticles]

/-! ## C10: the unguarded avg_sentiment division -/

/-- Counterexample to claim C10 as stated: company 1's last (and only) scored
article is 20 hours old, so its own decay is 0.0 — yet no division by zero
occurs, because the divisor is the decay of the GLOBALLY last-processed
scored article (company 2's, decay 1.0).  The batch computes a (wrong but
defined) ranking. -/
theorem batch_div_by_zero_not_per_company :
    time_decay (20 : ℚ) = 0 ∧
    batch_calculate_scores cex10Articles =
      some [⟨2, 1/2, 1, 1/2, 1⟩, ⟨1, 0, 1, 0, 2⟩] := by
  constructor
  · norm_num [time_decay, max_def]
  · norm_num [batch_calculate_scores, groupArticles, processArticle,
      aensure, aupdate, time_decay, max_def, buildRanking, sortDescBy,
      insertDescBy, assignRanksBatch, cex10Articles, List.foldl, List.any]

theorem exists_scored_of_lastDecayOf :
    ∀ (arts : List BatchArticle) (td : ℚ), lastDecayOf arts = some td →
      ∃ a ∈ arts, a.sentiment_score.isSome = true := by
  intro arts
  induction arts with
  | nil => intro td h; exact absurd h (by simp [lastDecayOf])
  | cons a arts ih =>
    intro td h
    rw [lastDecayOf] at h
    split at h
    · rename_i t' hl
      rcases ih t' hl with ⟨a', ha', hs⟩
      exact ⟨a', List.mem_cons_of_mem _ ha', hs⟩
    · split at h
      · rename_i s hs
        exact ⟨a, List.mem_cons_self _ _, by rw [hs]; rfl⟩
      · exact absurd h (by simp)

theorem weightedList_pos_of_mem :
    ∀ (arts : List BatchArticle) (a : BatchArticle), a ∈ arts →
      a.sentiment_score.isSome = true →
      0 < (weightedList a.company_id arts).length := by
  intro arts
  induction arts with
  | nil => intro a ha; cases ha
  | cons b arts ih =>
    intro a ha hs
    rw [weightedList, List.length_append]
    rcases List.mem_cons.mp ha with hhead | htail
    · subst hhead
      cases hs2 : a.sentiment_score with
      | none => rw [hs2] at hs; exact absurd hs (by simp)
      | some s => simp [hs2]
    · have hrec := ih a htail hs
      omega

/-- Amended C10: the unguarded division is by the decay of the single
last-processed scored article across ALL companies: whenever that article is
more than 10 hours old (leftover `time_decay = 0.0`), the avg_sentiment
expression divides by zero (a `ZeroDivisionError`, modelled as `none`) for
the whole ranking — provided at least one company has a scored article,
which the `lastDecayOf arts = some 0` hypothesis guarantees. -/
theorem batch_last_decay_zero_div_by_zero (arts : List BatchArticle)
    (h : lastDecayOf arts = some 0) :
    batch_calculate_scores arts = none := by
  rcases exists_scored_of_lastDecayOf arts 0 h with ⟨a, ha, hs⟩
  have hcount : 0 < countAt (groupArticles arts).entries a.company_id := by
    rw [countAt_groupArticles]
    exact weightedList_pos_of_mem arts a ha hs
  cases hfind : afind a.company_id (groupArticles arts).entries with
  | none =>
    rw [countAt, hfind] at hcount
    exact absurd hcount (by simp)
  | some d =>
    have hd : 0 < d.count := by
      rw [countAt, hfind] at hcount
      exact hcount
    have hmem : (a.company_id, d) ∈ (groupArticles arts).entries :=
      mem_of_afind_eq_some hfind
    have hnone : buildRanking (some 0) (groupArticles arts).entries = none :=
      buildRanking_zero_of_pos _ ⟨(a.company_id, d), hmem, hd⟩
    simp only [batch_calculate_scores]
    rw [lastDecay_groupArticles, h, hnone]

/-- Witness for the amended C10: a single 20-hour-old scored article makes
the leftover decay 0.0 and the batch aggregation raise. -/
theorem batch_last_decay_zero_div_by_zero_witness :
    lastDecayOf [⟨1, "AAA", "Alpha Corp", 20, some (1/2)⟩] = some 0 ∧
    batch_calculate_scores [⟨1, "AAA", "Alpha Corp", 20, some (1/2)⟩]
      = none :=
  ⟨by norm_num [lastDecayOf, time_decay, max_def],
   batch_last_decay_zero_div_by_zero _
     (by norm_num [lastDecayOf, time_decay, max_def])⟩

/-! ## C4: rank denseness and membership -/

theorem length_assignRanksBatch :
    ∀ (l : List RankedCompany) (k : Nat),
      (assignRanksBatch k l).length = l.length := by
  intro l
  induction l with
  | nil => intro k; rfl
  | cons e es ih =>
    intro k
    rw [assignRanksBatch, List.length_cons, ih, List.length_cons]

theorem length_assignRanksApi :
    ∀ (l : List ApiScoreRow) (k : Nat),
      (assignRanksApi k l).length = l.length := by
  intro l
  induction l with
  | nil => intro k; rfl
  | cons e es ih =>
    intro k
    rw [assignRanksApi, List.length_cons, ih, List.length_cons]

theorem weightedList_length_pos_iff (cid : Nat) :
    ∀ arts : List BatchArticle,
      0 < (weightedList cid arts).length ↔
        ∃ a ∈ arts, a.company_id = cid ∧ a.sentiment_score.isSome = true := by
  intro arts
  induction arts with
  | nil => simp [weightedList]
  | cons a arts ih =>
    rw [weightedList, List.length_append]
    constructor
    · intro h
      by_cases hcontrib :
          0 < (match a.sentiment_score with
               | some s =>
                 if a.company_id = cid then [s * time_decay a.hours_ago]
                 else []
               | none => ([] : List ℚ)).length
      · cases hs : a.sentiment_score with
        | none => rw [hs] at hcontrib; exact absurd hcontrib (by simp)
        | some s =>
          rw [hs] at hcontrib
          by_cases hc : a.company_id = cid
          · exact ⟨a, List.mem_cons_self _ _, hc, by rw [hs]; rfl⟩
          · simp [hc] at hcontrib
      · have h2 : 0 < (weightedList cid arts).length := by omega
        rcases ih.mp h2 with ⟨a', ha', hprop⟩
        exact ⟨a', List.mem_cons_of_mem _ ha', hprop⟩
    · intro h
      rcases h with ⟨a', ha', hcid, hsome⟩
      rcases List.mem_cons.mp ha' with hhead | htail
      · subst hhead
        cases hs : a'.sentiment_score with
        | none => rw [hs] at hsome; exact absurd hsome (by simp)
        | some s => simp [hcid]
      · have h2 := ih.mpr ⟨a', htail, hcid, hsome⟩
        omega

theorem length_eq_of_nodup_of_mem_iff {α : Type} [DecidableEq α]
    (l1 l2 : List α) (h1 : l1.Nodup) (h2 : l2.Nodup)
    (h : ∀ x, x ∈ l1 ↔ x ∈ l2) : l1.length = l2.length :=
  (List.perm_of_nodup_nodup_toFinset_eq h1 h2
    (Finset.ext (fun x => by
      rw [List.mem_toFinset, List.mem_toFinset]
      exact h x))).length_eq

/-- Counterexample to claim C4: for a date whose only article is unscored
(sentiment NULL), the API aggregation still ranks its company — rank 1 with
composite score 0 — although the company has zero scored articles and the
claim requires it to be absent. -/
theorem api_ranks_company_without_scored_articles :
    rawSentimentsApi "AAPL" [⟨"AAPL", none⟩] = [] ∧
    calculate_scores (apiGroup [⟨"AAPL", none⟩])
      = [⟨"AAPL", 0, 1, 0, 0, 0, 1⟩] := by
  constructor
  · simp [rawSentimentsApi]
  · norm_num [calculate_scores, apiGroup, apiGroupStep, aensure, aupdate,
      apiScoreOf, SENTIMENT_THRESHOLD_POSITIVE, SENTIMENT_THRESHOLD_NEGATIVE,
      sortDescBy, insertDescBy, assignRanksApi, List.foldl, List.any,
      List.filter]

/-- Amended C4: both aggregations assign exactly the dense ranks 1..N.  In
the batch aggregation N is the number of companies with at least one scored
article for the date, and a company with zero scored articles is absent from
the ranking.  In the API aggregation (`ScoreCalculator`) N is instead the
number of companies with at least one article — scored or not — for the
date, so a company whose articles are all unscored is ranked (with score 0)
rather than excluded. -/
theorem ranks_dense_characterization :
    (∀ (arts : List BatchArticle) (rows : List RankedCompany),
       batch_calculate_scores arts = some rows →
       rows.map (fun r => r.rank) = List.range' 1 rows.length ∧
       rows.length =
         (((arts.filter (fun a => a.sentiment_score.isSome)).map
             (fun a => a.company_id)).dedup).length ∧
       (∀ cid : Nat,
          (∀ a ∈ arts, a.company_id = cid → a.sentiment_score = none) →
          ∀ r ∈ rows, r.company_id ≠ cid)) ∧
    (∀ arts : List ApiArticle,
       (calculate_scores (apiGroup arts)).map (fun r => r.rank) =
         List.range' 1 (calculate_scores (apiGroup arts)).length ∧
       (calculate_scores (apiGroup arts)).length =
         ((arts.map (fun a => a.ticker)).dedup).length) := by
  constructor
  · intro arts rows hrows
    simp only [batch_calculate_scores] at hrows
    split at hrows
    · exact absurd hrows (by simp)
    · rename_i ranking hb
      injection hrows with hrows
      subst hrows
      have hlen1 : (assignRanksBatch 1
          (sortDescBy (fun r => r.score) ranking)).length = ranking.length := by
        rw [length_assignRanksBatch,
          (sortDescBy_perm (fun r => r.score) ranking).length_eq]
      refine ⟨?_, ?_, ?_⟩
      · rw [map_rank_assignRanksBatch, hlen1,
          (sortDescBy_perm (fun r => r.score) ranking).length_eq]
      · rw [hlen1]
        have hmap := buildRanking_map_cid _ _ _ hb
        have hlen2 : ranking.length =
            (((groupArticles arts).entries.filter
               (fun e => 0 < e.2.count)).map Prod.fst).length := by
          rw [← List.length_map ranking (fun r => r.company_id), hmap]
        rw [hlen2]
        apply length_eq_of_nodup_of_mem_iff
        · exact ((List.filter_sublist _).map Prod.fst).nodup
            (keys_groupArticles_nodup arts)
        · exact List.nodup_dedup _
        · intro cid
          rw [List.mem_dedup]
          constructor
          · intro hmem
            rcases List.mem_map.mp hmem with ⟨e, he, hek⟩
            rcases List.mem_filter.mp he with ⟨he2, hcnt⟩
            have hcnt2 : 0 < e.2.count := by simpa using hcnt
            have hfind : afind e.1 (groupArticles arts).entries = some e.2 :=
              afind_eq_some_of_mem_nodup (keys_groupArticles_nodup arts)
                (by rw [show (e.1, e.2) = e from rfl]; exact he2)
            have hcountAt : 0 < countAt (groupArticles arts).entries e.1 := by
              rw [countAt, hfind]
              exact hcnt2
            rw [countAt_groupArticles] at hcountAt
            rcases (weightedList_length_pos_iff e.1 arts).mp hcountAt with
              ⟨a, ha, hac, hasome⟩
            subst hek
            exact List.mem_map.mpr
              ⟨a, List.mem_filter.mpr ⟨ha, hasome⟩, hac⟩
          · intro hmem
            rcases List.mem_map.mp hmem with ⟨a, ha, hac⟩
            rcases List.mem_filter.mp ha with ⟨ha2, hasome⟩
            have hpos : 0 < (weightedList cid arts).length :=
              (weightedList_length_pos_iff cid arts).mpr
                ⟨a, ha2, hac, hasome⟩
            rw [← countAt_groupArticles] at hpos
            cases hfind : afind cid (groupArticles arts).entries with
            | none =>
              rw [countAt, hfind] at hpos
              exact absurd hpos (by simp)
            | some d =>
              have hdc : 0 < d.count := by
                rw [countAt, hfind] at hpos
                exact hpos
              refine List.mem_map.mpr ⟨(cid, d), ?_, rfl⟩
              exact List.mem_filter.mpr
                ⟨mem_of_afind_eq_some hfind, by simpa using hdc⟩
      · intro cid hnone r hr hrc
        rcases mem_assignRanksBatch 1 _ r hr with ⟨e, he, hcid, _, _, _⟩
        have he2 : e ∈ ranking :=
          ((sortDescBy_perm (fun r => r.score) ranking).mem_iff).mp he
        rcases buildRanking_mem _ _ _ hb e he2 with ⟨d, hd, hdc, _, _⟩
        have hfind : afind e.company_id (groupArticles arts).entries = some d :=
          afind_eq_some_of_mem_nodup (keys_groupArticles_nodup arts) hd
        have hpos : 0 < (weightedList e.company_id arts).length := by
          rw [← countAt_groupArticles]
          rw [countAt, hfind]
          exact hdc
        rcases (weightedList_length_pos_iff e.company_id arts).mp hpos with
          ⟨a, ha, hac, hasome⟩
        rw [← hcid, hrc] at hac
        rw [hnone a ha hac] at hasome
        exact absurd hasome (by simp)
  · intro arts
    have hform : calculate_scores (apiGroup arts) =
        assignRanksApi 1 (sortDescBy (fun r => r.score)
          ((apiGroup arts).map (fun p => apiScoreOf p.1 p.2))) := rfl
    have hperm := sortDescBy_perm (fun r : ApiScoreRow => r.score)
      ((apiGroup arts).map (fun p => apiScoreOf p.1 p.2))
    have hlen1 : (calculate_scores (apiGroup arts)).length =
        (apiGroup arts).length := by
      rw [hform, length_assignRanksApi, hperm.length_eq, List.length_map]
    constructor
    · rw [hform, map_rank_assignRanksApi, length_assignRanksApi]
    · rw [hlen1, ← List.length_map (apiGroup arts) Prod.fst]
      apply length_eq_of_nodup_of_mem_iff
      · exact keys_apiGroup_nodup arts
      · exact List.nodup_dedup _
      · intro tk
        rw [List.mem_dedup,
          ← afind_isSome_iff_mem_keys tk (apiGroup arts),
          afind_apiGroup_isSome]
        constructor
        · intro h
          rcases h with ⟨a, ha, htk⟩
          exact List.mem_map.mpr ⟨a, ha, htk⟩
        · intro h
          rcases List.mem_map.mp h with ⟨a, ha, htk⟩
          exact ⟨a, ha, htk⟩

/-- Witness for the amended C4: the §8 scenario yields a single rank-1 row on
the batch side, and the unscored-article date yields ranks [1] with N = 1 on
the API side. -/
theorem ranks_dense_characterization_witness :
    ([⟨1, 3/10, 2, 3/5, 1⟩] : List RankedCompany).map (fun r => r.rank) =
        List.range' 1 ([⟨1, 3/10, 2, 3/5, 1⟩] : List RankedCompany).length ∧
    ([⟨1, 3/10, 2, 3/5, 1⟩] : List RankedCompany).length =
      (((scenarioArticles.filter (fun a => a.sentiment_score.isSome)).map
          (fun a => a.company_id)).dedup).length ∧
    (∀ cid : Nat,
       (∀ a ∈ scenarioArticles, a.company_id = cid →
          a.sentiment_score = none) →
       ∀ r ∈ ([⟨1, 3/10, 2, 3/5, 1⟩] : List RankedCompany),
         r.company_id ≠ cid) :=
  ranks_dense_characterization.1 scenarioArticles [⟨1, 3/10, 2, 3/5, 1⟩]
    (by norm_num [batch_calculate_scores, groupArticles, processArticle,
      aensure, aupdate, time_decay, max_def, buildRanking, sortDescBy,
      insertDescBy, assignRanksBatch, scenarioArticles, List.foldl,
      List.any])
